import Mathlib

/-!
Verification of the `derive_destructure` code generator (src/src/lib.rs).

The crate is a compile-time code generator: each derive is a pure function
from a parsed type declaration (`syn::DeriveInput`) to a stream of Rust
tokens built by `quote!` / `quote_spanned!` templates.  We embed the input
syntax tree at the granularity the generator actually inspects, embed the
two generator functions `derive_destructure` and `derive_remove_trait_impls`
as total Lean functions producing a structured output syntax tree, and give
that output tree a token rendering that spells out the emitted Rust source
exactly as the `quote!` templates lay it out.  A `panic!` in the generator
is modelled as `Except.error` carrying the panic message; on the error path
the Rust function diverges before building any output, so no output tokens
exist.

Spans: `quote_spanned! {f.span()=> ...}` stamps the template tokens of a
field-derived fragment with the span of that field, and tokens interpolated
from the field (its name, its type) keep their own spans, which lie inside
the same field's source region.  We model spans at field granularity: a
field carries one span (`f.span()`), and every emitted token belonging to a
fragment generated from that field carries it.  Tokens produced by plain
`quote!` carry no user span (call-site).
-/

namespace DeriveDestructure

/-- Source span, abstracted as a numeric identifier (`proc_macro2::Span`). -/
abbrev Span := Nat

/-- One named field `name: Ty` of a struct or enum variant, with the field
span `f.span()`. The type is kept as opaque source text, unresolved. -/
structure NamedField where
  name : String
  ty : String
  span : Span
deriving DecidableEq, Repr

/-- One positional (tuple) field `Ty`, with the field span `f.span()`. -/
structure UnnamedField where
  ty : String
  span : Span
deriving DecidableEq, Repr

/-- The field list of a struct or of one enum variant (`syn::Fields`). -/
inductive Fields where
  | named (fs : List NamedField)
  | unnamed (fs : List UnnamedField)
  | unit
deriving DecidableEq, Repr

/-- One variant of an enum declaration (`syn::Variant`). -/
structure Variant where
  name : String
  fields : Fields
deriving DecidableEq, Repr

/-- One generic parameter (lifetime or type parameter) with its optional
bounds, both kept as opaque source text. -/
structure GenericParam where
  tokens : String
  bounds : List String
deriving DecidableEq, Repr

/-- The generics of a declaration: the ordered parameter list and the
predicates of the optional where-clause (`syn::Generics`). -/
structure Generics where
  params : List GenericParam
  whereClause : List String
deriving DecidableEq, Repr

/-- The body of a declaration (`syn::Data`): struct, enum or union. -/
inductive Data where
  | structData (fields : Fields)
  | enumData (variants : List Variant)
  | unionData (fields : List NamedField)
deriving DecidableEq, Repr

/-- A parsed derive input (`syn::DeriveInput`): the declared identifier,
its generics and its body. -/
structure DeriveInput where
  ident : String
  generics : Generics
  data : Data
deriving DecidableEq, Repr

/-! Fragments produced by `Generics::split_for_impl`, rendered as token
lists.  `impl_generics` (the introduction fragment) keeps each parameter's
bounds; `ty_generics` (the application fragment) keeps only the parameter
itself; the where-clause is passed through verbatim. -/

/-- Tokens of one parameter inside `impl_generics`: the parameter followed
by a colon and its bounds, when it has any. -/
def GenericParam.introToks (p : GenericParam) : List String :=
  p.tokens :: (if p.bounds.isEmpty then [] else ":" :: p.bounds)

/-- Rendering of `impl_generics`: the parameter list with bounds, or
nothing at all when there are no parameters. -/
def introFragment (g : Generics) : List String :=
  if g.params.isEmpty then []
  else "<" :: List.intercalate [","] (g.params.map GenericParam.introToks) ++ [">"]

/-- Rendering of `ty_generics`: the parameter list without bounds, or
nothing at all when there are no parameters. -/
def applFragment (g : Generics) : List String :=
  if g.params.isEmpty then []
  else "<" :: List.intercalate [","] (g.params.map (fun p => [p.tokens])) ++ [">"]

/-- Rendering of the where-clause, or nothing when it is absent. -/
def whereFragment (g : Generics) : List String :=
  if g.whereClause.isEmpty then []
  else "where" :: List.intercalate [","] (g.whereClause.map (fun w => [w]))

/-! The output syntax tree.  Its constructors correspond one-to-one to the
fragments the `quote!` templates in src/src/lib.rs can produce. -/

/-- How an emitted expression names a field of `self_ref`: by field name or
by ordinal index (`syn::Index`). -/
inductive Accessor where
  | named (name : String)
  | ordinal (k : Nat)
deriving DecidableEq, Repr

/-- A bitwise read emitted in a method body: either
`::std::ptr::read(&self_ref.acc)` through the view into the cell, or
`::std::ptr::read(b)` from a match binding `b`.  The span is the field span
given to `quote_spanned!`. -/
inductive ReadExpr where
  | viaView (acc : Accessor) (span : Span)
  | viaBinding (binding : String) (span : Span)
deriving DecidableEq, Repr

/-- The result expression at the tail of an emitted body: the anonymous
tuple `(r, r, ...)`, a brace struct literal `Path { f: r, ... }`, a tuple
struct call `Path(r, ...)`, or a bare path (unit construction). -/
inductive ResultExpr where
  | tupleOf (reads : List ReadExpr)
  | structOf (path : List String) (fields : List (String × ReadExpr))
  | callOf (path : List String) (reads : List ReadExpr)
  | pathOf (path : List String)
deriving DecidableEq, Repr

/-- One `ref` binding in an emitted match pattern: `ref name` for a named
field, `ref __k` with a synthesized ordinal name for a positional field. -/
inductive PatBinding where
  | refNamed (name : String) (span : Span)
  | refOrdinal (binding : String) (span : Span)
deriving DecidableEq, Repr

/-- An emitted match pattern.  The generator only produces the three
variant-pattern forms; `wildcardPat` exists in the output language so that
the absence of a wildcard arm is a contentful statement. -/
inductive ArmPat where
  | namedPat (path : List String) (bindings : List PatBinding)
  | unnamedPat (path : List String) (bindings : List PatBinding)
  | unitPat (path : List String)
  | wildcardPat
deriving DecidableEq, Repr

/-- One arm `pat => rhs` of the emitted match. -/
structure Arm where
  pat : ArmPat
  rhs : ResultExpr
deriving DecidableEq, Repr

/-- The body of an emitted method.
`bypass r` is the bypass protocol:
`let maybe_uninit = ::std::mem::MaybeUninit::new(self);` then, inside the
unsafe block, `let self_ref = &*maybe_uninit.as_ptr();` followed by the
result expression `r`.
`cellOnly t` is the zero-field body `let _ = ::std::mem::MaybeUninit::new(self);`
optionally followed by a bare path expression `t`.
`matchOn arms` is `let maybe_uninit = ...;` then, inside the unsafe block,
`match &*maybe_uninit.as_ptr() { arms }`. -/
inductive MethodBody where
  | bypass (result : ResultExpr)
  | cellOnly (tail : Option String)
  | matchOn (arms : List Arm)
deriving DecidableEq, Repr

/-- The return type written on an emitted method: the anonymous tuple of
the field types `(T, T, ...)` with each element carrying its field span, no
return type at all, or the auxiliary type applied to `ty_generics`. -/
inductive RetTy where
  | tuple (tys : List (String × Span))
  | none
  | tyApp (name : String) (generics : List String)
deriving DecidableEq, Repr

/-- An emitted method definition. -/
structure Method where
  vis : Option String
  inlineAlways : Bool
  name : String
  selfByValue : Bool
  ret : RetTy
  body : MethodBody
deriving DecidableEq, Repr

/-- An emitted `impl` block:
`impl #impl_generics #name #ty_generics #where_clause { method }`. -/
structure ImplBlock where
  introGenerics : List String
  selfName : String
  selfGenerics : List String
  whereC : List String
  method : Method
deriving DecidableEq, Repr

/-- A field of the emitted auxiliary type declaration, carrying the span of
the input field it mirrors. -/
structure FieldDecl where
  name : Option String
  ty : String
  span : Span
deriving DecidableEq, Repr

/-- The field list of the auxiliary type or of one of its variants. -/
inductive DeclFields where
  | named (fs : List FieldDecl)
  | unnamed (fs : List FieldDecl)
  | unit
deriving DecidableEq, Repr

/-- The shape of the emitted auxiliary type declaration. -/
inductive DeclShape where
  | structShape (fields : DeclFields)
  | enumShape (variants : List (String × DeclFields))
deriving DecidableEq, Repr

/-- The emitted auxiliary type declaration
`struct/enum #new_type_name #ty_generics #where_clause ...`. -/
structure TypeDecl where
  vis : Option String
  name : String
  generics : List String
  whereC : List String
  shape : DeclShape
deriving DecidableEq, Repr

/-- Output of `#[derive(destructure)]`: a single impl block. -/
structure DestructureOut where
  impl : ImplBlock
deriving DecidableEq, Repr

/-- Output of `#[derive(remove_trait_impls)]`: the auxiliary type
declaration followed by an impl block. -/
structure RemoveOut where
  auxDecl : TypeDecl
  impl : ImplBlock
deriving DecidableEq, Repr

/-- Panic message of `derive_destructure` on an enum input. -/
def destructureEnumMsg : String :=
  "#[derive(destructure)] doesn\x27t work on enums, use #[derive(remove_trait_impls)] instead."

/-- Panic message of `derive_destructure` on a union input. -/
def destructureUnionMsg : String :=
  "#[derive(destructure)] doesn\x27t work on unions."

/-- Panic message of `derive_remove_trait_impls` on a union input. -/
def removeUnionMsg : String :=
  "#[derive(remove_trait_impls)] doesn\x27t work on unions."

/-- Reads of the fields of a named struct, in declaration order:
`::std::ptr::read(&self_ref.#ident)` stamped with each field's span. -/
def namedReads (fs : List NamedField) : List ReadExpr :=
  fs.map fun f => ReadExpr.viaView (Accessor.named f.name) f.span

/-- Reads of the fields of a tuple struct, in declaration order:
`::std::ptr::read(&self_ref.#index)` stamped with each field's span. -/
def unnamedReads (fs : List UnnamedField) : List ReadExpr :=
  fs.enum.map fun p => ReadExpr.viaView (Accessor.ordinal p.1) p.2.span

/-- Element types of the returned tuple, in declaration order, each
carrying its field's span (named struct case). -/
def namedTupleTys (fs : List NamedField) : List (String × Span) :=
  fs.map fun f => (f.ty, f.span)

/-- Element types of the returned tuple, in declaration order, each
carrying its field's span (tuple struct case). -/
def unnamedTupleTys (fs : List UnnamedField) : List (String × Span) :=
  fs.map fun f => (f.ty, f.span)

/-- Embedding of the `destructure` derive (src/src/lib.rs, `derive_destructure`).
It emits one impl block with a method `destructure`; enums and unions make
the generator panic with a fixed message before emitting anything. -/
def derive_destructure (input : DeriveInput) : Except String DestructureOut :=
  let name := input.ident
  let ig := introFragment input.generics
  let tg := applFragment input.generics
  let wc := whereFragment input.generics
  match input.data with
  | Data.structData (Fields.named fs) =>
      Except.ok ⟨⟨ig, name, tg, wc,
        ⟨Option.none, true, "destructure", true,
          RetTy.tuple (namedTupleTys fs),
          MethodBody.bypass (ResultExpr.tupleOf (namedReads fs))⟩⟩⟩
  | Data.structData (Fields.unnamed fs) =>
      Except.ok ⟨⟨ig, name, tg, wc,
        ⟨Option.none, true, "destructure", true,
          RetTy.tuple (unnamedTupleTys fs),
          MethodBody.bypass (ResultExpr.tupleOf (unnamedReads fs))⟩⟩⟩
  | Data.structData Fields.unit =>
      Except.ok ⟨⟨ig, name, tg, wc,
        ⟨Option.none, true, "destructure", true,
          RetTy.none,
          MethodBody.cellOnly Option.none⟩⟩⟩
  | Data.enumData _ => Except.error destructureEnumMsg
  | Data.unionData _ => Except.error destructureUnionMsg

/-- The fields of one auxiliary enum variant, mirroring the input variant's
fields with their types and spans (src/src/lib.rs lines 263-295). -/
def auxVariantFields : Fields → DeclFields
  | Fields.named fs => DeclFields.named (fs.map fun f => ⟨some f.name, f.ty, f.span⟩)
  | Fields.unnamed fs => DeclFields.unnamed (fs.map fun f => ⟨Option.none, f.ty, f.span⟩)
  | Fields.unit => DeclFields.unit

/-- The synthesized binding name for the positional field of ordinal `i`
inside a match arm: `__i` (src/src/lib.rs lines 318 and 324). -/
def ordinalBinding (i : Nat) : String := "__" ++ toString i

/-- One match arm of the emitted enum `remove_trait_impls` body
(src/src/lib.rs lines 296-339): the pattern binds every field of the
variant by reference and the right-hand side rebuilds the same-named
variant of the auxiliary type by reading each binding. -/
def armOf (name newTypeName : String) (v : Variant) : Arm :=
  match v.fields with
  | Fields.named fs =>
      { pat := ArmPat.namedPat [name, v.name]
          (fs.map fun f => PatBinding.refNamed f.name f.span),
        rhs := ResultExpr.structOf [newTypeName, v.name]
          (fs.map fun f => (f.name, ReadExpr.viaBinding f.name f.span)) }
  | Fields.unnamed fs =>
      { pat := ArmPat.unnamedPat [name, v.name]
          (fs.enum.map fun p => PatBinding.refOrdinal (ordinalBinding p.1) p.2.span),
        rhs := ResultExpr.callOf [newTypeName, v.name]
          (fs.enum.map fun p => ReadExpr.viaBinding (ordinalBinding p.1) p.2.span) }
  | Fields.unit =>
      { pat := ArmPat.unitPat [name, v.name],
        rhs := ResultExpr.pathOf [newTypeName, v.name] }

/-- Embedding of the `remove_trait_impls` derive (src/src/lib.rs,
`derive_remove_trait_impls`).  It emits the auxiliary type declaration
`<name>WithoutTraitImpls` followed by one impl block with a method
`remove_trait_impls`; a union input makes the generator panic. -/
def derive_remove_trait_impls (input : DeriveInput) : Except String RemoveOut :=
  let name := input.ident
  let newTypeName := name ++ "WithoutTraitImpls"
  let ig := introFragment input.generics
  let tg := applFragment input.generics
  let wc := whereFragment input.generics
  match input.data with
  | Data.structData (Fields.named fs) =>
      Except.ok ⟨⟨Option.none, newTypeName, tg, wc,
          DeclShape.structShape
            (DeclFields.named (fs.map fun f => ⟨some f.name, f.ty, f.span⟩))⟩,
        ⟨ig, name, tg, wc,
          ⟨Option.none, true, "remove_trait_impls", true,
            RetTy.tyApp newTypeName tg,
            MethodBody.bypass (ResultExpr.structOf [newTypeName]
              (fs.map fun f => (f.name, ReadExpr.viaView (Accessor.named f.name) f.span)))⟩⟩⟩
  | Data.structData (Fields.unnamed fs) =>
      Except.ok ⟨⟨Option.none, newTypeName, tg, wc,
          DeclShape.structShape
            (DeclFields.unnamed (fs.map fun f => ⟨Option.none, f.ty, f.span⟩))⟩,
        ⟨ig, name, tg, wc,
          ⟨Option.none, true, "remove_trait_impls", true,
            RetTy.tyApp newTypeName tg,
            MethodBody.bypass (ResultExpr.callOf [newTypeName] (unnamedReads fs))⟩⟩⟩
  | Data.structData Fields.unit =>
      Except.ok ⟨⟨Option.none, newTypeName, tg, wc,
          DeclShape.structShape DeclFields.unit⟩,
        ⟨ig, name, tg, wc,
          ⟨Option.none, true, "remove_trait_impls", true,
            RetTy.tyApp newTypeName tg,
            MethodBody.cellOnly (some newTypeName)⟩⟩⟩
  | Data.enumData vs =>
      Except.ok ⟨⟨Option.none, newTypeName, tg, wc,
          DeclShape.enumShape (vs.map fun v => (v.name, auxVariantFields v.fields))⟩,
        ⟨ig, name, tg, wc,
          ⟨Option.none, true, "remove_trait_impls", true,
            RetTy.tyApp newTypeName tg,
            MethodBody.matchOn (vs.map (armOf name newTypeName))⟩⟩⟩
  | Data.unionData _ => Except.error removeUnionMsg

/-! Token rendering.  The structured output above is mapped to the exact
token stream the `quote!` templates emit, so that claims about the literal
shape of the generated source (protocol ordering, the trailing comma of the
one-element tuple, absence of any cleanup call) can be stated on tokens.
An opening brace is written `\x7b` and a closing one `\x7d`. -/

/-- One output token: its text and the user span stamped on it, if any. -/
structure Tok where
  text : String
  span : Option Span
deriving DecidableEq, Repr

/-- Tokens carrying no user span (emitted by plain `quote!`). -/
def plain (ts : List String) : List Tok := ts.map fun t => ⟨t, Option.none⟩

/-- Tokens stamped with span `s` (emitted inside `quote_spanned! {s=> ...}`). -/
def spanned (ts : List String) (s : Span) : List Tok := ts.map fun t => ⟨t, some s⟩

/-- Path segments joined by `::`. -/
def pathToks (p : List String) : List String :=
  List.intercalate ["::"] (p.map fun s => [s])

/-- Elements each followed by a trailing comma, as `#(#x,)*` lays them out. -/
def commaJoin (xs : List (List Tok)) : List Tok :=
  (xs.map fun x => x ++ plain [","]).flatten

/-- Tokens of a field accessor: the field name, or the index literal. -/
def Accessor.toks : Accessor → List String
  | Accessor.named n => [n]
  | Accessor.ordinal k => [toString k]

/-- Span stamped on a read expression (the span of its source field). -/
def ReadExpr.sp : ReadExpr → Span
  | ReadExpr.viaView _ s => s
  | ReadExpr.viaBinding _ s => s

/-- Tokens of a read expression. -/
def ReadExpr.toks : ReadExpr → List Tok
  | ReadExpr.viaView acc s =>
      spanned (["::", "std", "::", "ptr", "::", "read", "(", "&", "self_ref", "."]
        ++ acc.toks ++ [")"]) s
  | ReadExpr.viaBinding b s =>
      spanned ["::", "std", "::", "ptr", "::", "read", "(", b, ")"] s

/-- Tokens of a result expression. -/
def ResultExpr.toks : ResultExpr → List Tok
  | ResultExpr.tupleOf rs => plain ["("] ++ commaJoin (rs.map ReadExpr.toks) ++ plain [")"]
  | ResultExpr.structOf p fls =>
      plain (pathToks p ++ ["\x7b"])
        ++ commaJoin (fls.map fun q => spanned [q.1, ":"] q.2.sp ++ q.2.toks)
        ++ plain ["\x7d"]
  | ResultExpr.callOf p rs =>
      plain (pathToks p ++ ["("]) ++ commaJoin (rs.map ReadExpr.toks) ++ plain [")"]
  | ResultExpr.pathOf p => plain (pathToks p)

/-- The reads a result expression performs, in emission order. -/
def ResultExpr.reads : ResultExpr → List ReadExpr
  | ResultExpr.tupleOf rs => rs
  | ResultExpr.structOf _ fls => fls.map fun q => q.2
  | ResultExpr.callOf _ rs => rs
  | ResultExpr.pathOf _ => []

/-- Span stamped on a pattern binding. -/
def PatBinding.sp : PatBinding → Span
  | PatBinding.refNamed _ s => s
  | PatBinding.refOrdinal _ s => s

/-- The local name a pattern binding introduces. -/
def PatBinding.bname : PatBinding → String
  | PatBinding.refNamed n _ => n
  | PatBinding.refOrdinal b _ => b

/-- Tokens of a pattern binding: `ref name`, stamped with the field span. -/
def PatBinding.toks : PatBinding → List Tok
  | PatBinding.refNamed n s => spanned ["ref", n] s
  | PatBinding.refOrdinal b s => spanned ["ref", b] s

/-- Tokens of a match pattern. -/
def ArmPat.toks : ArmPat → List Tok
  | ArmPat.namedPat p bs =>
      plain (pathToks p ++ ["\x7b"]) ++ commaJoin (bs.map PatBinding.toks) ++ plain ["\x7d"]
  | ArmPat.unnamedPat p bs =>
      plain (pathToks p ++ ["("]) ++ commaJoin (bs.map PatBinding.toks) ++ plain [")"]
  | ArmPat.unitPat p => plain (pathToks p)
  | ArmPat.wildcardPat => plain ["_"]

/-- Tokens of one match arm, `pat => rhs`. -/
def Arm.toks (a : Arm) : List Tok := a.pat.toks ++ plain ["=>"] ++ a.rhs.toks

/-- Tokens of `let maybe_uninit = ::std::mem::MaybeUninit::new(self);`, the
construction of the no-cleanup storage cell from the consumed instance. -/
def cellToks : List Tok :=
  plain ["let", "maybe_uninit", "=", "::", "std", "::", "mem", "::", "MaybeUninit",
    "::", "new", "(", "self", ")", ";"]

/-- Tokens of `let _ = ::std::mem::MaybeUninit::new(self);`: the cell is
built from the consumed instance and immediately dropped unused. -/
def cellDropToks : List Tok :=
  plain ["let", "_", "=", "::", "std", "::", "mem", "::", "MaybeUninit",
    "::", "new", "(", "self", ")", ";"]

/-- Tokens of `let self_ref = &*maybe_uninit.as_ptr();`, the immutable view
into the cell. -/
def viewToks : List Tok :=
  plain ["let", "self_ref", "=", "&", "*", "maybe_uninit", ".", "as_ptr", "(", ")", ";"]

/-- Tokens of the scrutinee `match &*maybe_uninit.as_ptr()`. -/
def matchHeadToks : List Tok :=
  plain ["match", "&", "*", "maybe_uninit", ".", "as_ptr", "(", ")"]

/-- Tokens of a method body, exactly as the templates lay it out. -/
def MethodBody.toks : MethodBody → List Tok
  | MethodBody.bypass r =>
      cellToks ++ plain ["unsafe", "\x7b"] ++ viewToks ++ r.toks ++ plain ["\x7d"]
  | MethodBody.cellOnly t =>
      cellDropToks ++ (match t with | some p => plain [p] | Option.none => [])
  | MethodBody.matchOn arms =>
      cellToks ++ plain ["unsafe", "\x7b"] ++ matchHeadToks ++ plain ["\x7b"]
        ++ commaJoin (arms.map Arm.toks) ++ plain ["\x7d", "\x7d"]

/-- Tokens of the emitted return type. -/
def RetTy.toks : RetTy → List Tok
  | RetTy.tuple tys => plain ["("] ++ commaJoin (tys.map fun q => [⟨q.1, some q.2⟩]) ++ plain [")"]
  | RetTy.none => []
  | RetTy.tyApp n g => plain ([n] ++ g)

/-- Every function or method a read expression invokes: only the bitwise
read primitive. -/
def ReadExpr.callTarget : ReadExpr → String := fun _ => "::std::ptr::read"

/-- Every function or method a result expression invokes. -/
def ResultExpr.callTargets : ResultExpr → List String
  | ResultExpr.tupleOf rs => rs.map ReadExpr.callTarget
  | ResultExpr.structOf _ fls => fls.map fun q => q.2.callTarget
  | ResultExpr.callOf _ rs => rs.map ReadExpr.callTarget
  | ResultExpr.pathOf _ => []

/-- Every function or method an emitted body invokes, in order: the cell
constructor, the view accessor, and the bitwise reads.  Nothing else is
ever called, in particular no cleanup routine. -/
def MethodBody.callTargets : MethodBody → List String
  | MethodBody.bypass r => "::std::mem::MaybeUninit::new" :: ".as_ptr" :: r.callTargets
  | MethodBody.cellOnly _ => ["::std::mem::MaybeUninit::new"]
  | MethodBody.matchOn arms =>
      "::std::mem::MaybeUninit::new" :: ".as_ptr" :: (arms.map fun a => a.rhs.callTargets).flatten

/-! Concrete inputs, taken from the crate's test suite, used to witness the
theorems below on closed instances. -/

/-- Fields of the doc example `struct ImplementsDrop { some_str: String, some_int: i32 }`. -/
def exNamedFs : List NamedField := [⟨"some_str", "String", 11⟩, ⟨"some_int", "i32", 12⟩]

/-- The doc example input `ImplementsDrop`, a named record without generics. -/
def exNamed : DeriveInput := ⟨"ImplementsDrop", ⟨[], []⟩, Data.structData (Fields.named exNamedFs)⟩

/-- Generics `<T: SomeTrait>` of the test inputs `TraitBounded` and `GenericEnum`. -/
def exGenerics : Generics := ⟨[⟨"T", ["SomeTrait"]⟩], []⟩

/-- Field list of the test input `struct TraitBounded<T: SomeTrait>(T);`. -/
def exUnnamedFs : List UnnamedField := [⟨"T", 21⟩]

/-- The test input `TraitBounded`, a one-field positional record. -/
def exUnnamed : DeriveInput := ⟨"TraitBounded", exGenerics, Data.structData (Fields.unnamed exUnnamedFs)⟩

/-- A unit record input `struct Foo;`. -/
def exUnit : DeriveInput := ⟨"Foo", ⟨[], []⟩, Data.structData Fields.unit⟩

/-- An empty positional record input `struct Empty();`. -/
def exEmptyTuple : DeriveInput := ⟨"Empty", ⟨[], []⟩, Data.structData (Fields.unnamed [])⟩

/-- Variants of the test input `enum GenericEnum<T: SomeTrait> { A(T), B(T, f64), C { x: String, y: T }, D }`. -/
def exVariants : List Variant :=
  [⟨"A", Fields.unnamed [⟨"T", 31⟩]⟩,
   ⟨"B", Fields.unnamed [⟨"T", 32⟩, ⟨"f64", 33⟩]⟩,
   ⟨"C", Fields.named [⟨"x", "String", 34⟩, ⟨"y", "T", 35⟩]⟩,
   ⟨"D", Fields.unit⟩]

/-- The test input `GenericEnum`, a tagged union with all three variant shapes. -/
def exEnum : DeriveInput := ⟨"GenericEnum", exGenerics, Data.enumData exVariants⟩

/-- A union input `union U { a: i32 }`, unsupported by both derives. -/
def exUnion : DeriveInput := ⟨"U", ⟨[], []⟩, Data.unionData [⟨"a", "i32", 41⟩]⟩

/-! Helper lemmas shared by the claim theorems. -/

/-- Every call target contributed by a list of reads is the bitwise read
primitive. -/
theorem mem_read_callTargets {t : String} {rs : List ReadExpr}
    (h : t ∈ rs.map ReadExpr.callTarget) : t = "::std::ptr::read" := by
  rcases List.mem_map.mp h with ⟨r, _, hr⟩
  simpa [ReadExpr.callTarget] using hr.symm

/-- Indexing `List.enum`: the element at position `k` is `(k, l[k])`. -/
theorem enum_getElem? {α : Type} (l : List α) (k : Nat) :
    l.enum[k]? = l[k]?.map fun x => (k, x) := by
  by_cases hk : k < l.length
  · rw [List.getElem?_eq_getElem (show k < l.enum.length by
        simpa [List.enum_length] using hk),
      List.getElem_enum, List.getElem?_eq_getElem hk]
    rfl
  · rw [List.getElem?_eq_none (show l.enum.length ≤ k by
        simpa [List.enum_length] using Nat.le_of_not_lt hk),
      List.getElem?_eq_none (Nat.le_of_not_lt hk)]
    rfl

/-- Indexing a map over `List.enum` (the embedding of Rust's
`.iter().enumerate().map(...)`): the element at position `k` is the image
of `(k, l[k])`. -/
theorem enum_map_getElem? {α β : Type} (g : Nat × α → β) (l : List α) (k : Nat) :
    (l.enum.map g)[k]? = l[k]?.map fun x => g (k, x) := by
  rw [List.getElem?_map]
  by_cases hk : k < l.length
  · rw [List.getElem?_eq_getElem (show k < l.enum.length by
        simpa [List.enum_length] using hk),
      List.getElem_enum, List.getElem?_eq_getElem hk]
    rfl
  · rw [List.getElem?_eq_none (show l.enum.length ≤ k by
        simpa [List.enum_length] using Nat.le_of_not_lt hk),
      List.getElem?_eq_none (Nat.le_of_not_lt hk)]
    rfl

/-- Indexing the reads of a tuple struct: the read at position `k` targets
ordinal `k` and carries the span of field `k`. -/
theorem unnamedReads_getElem? (fs : List UnnamedField) (k : Nat) :
    (unnamedReads fs)[k]? =
      fs[k]?.map fun f => ReadExpr.viaView (Accessor.ordinal k) f.span := by
  unfold unnamedReads
  rw [enum_map_getElem?]

/-! Claim C1. -/

/-- Conclusion of claim C1 for one record input: the emitted `destructure`
body first builds the no-cleanup cell, then takes the view into it, then
collects the given bitwise reads into the returned anonymous tuple, and
invokes no cleanup routine. -/
def destructureBodyOk (i : DeriveInput) (reads : List ReadExpr) : Prop :=
  ∃ out, derive_destructure i = Except.ok out ∧
    out.impl.method.body = MethodBody.bypass (ResultExpr.tupleOf reads) ∧
    out.impl.method.body.toks =
      cellToks ++ plain ["unsafe", "\x7b"] ++ viewToks
        ++ plain ["("] ++ commaJoin (reads.map ReadExpr.toks) ++ plain [")", "\x7d"] ∧
    ∀ t ∈ out.impl.method.body.callTargets, t ≠ "drop"

/-- C1: for every record declaration (named or positional fields) the
emitted `destructure` body follows the bypass protocol — it places the
consumed instance into `MaybeUninit::new(self)`, obtains the view
`&*maybe_uninit.as_ptr()`, and performs one `::std::ptr::read` per field
through that view, collected in declaration order into the returned tuple —
and the body contains no invocation of the instance's cleanup routine. -/
theorem claim1 (i : DeriveInput) :
    (∀ fs, i.data = Data.structData (Fields.named fs) →
      destructureBodyOk i (namedReads fs)) ∧
    (∀ fs, i.data = Data.structData (Fields.unnamed fs) →
      destructureBodyOk i (unnamedReads fs)) := by
  obtain ⟨id, g, d⟩ := i
  constructor
  · intro fs h
    cases h
    refine ⟨_, rfl, rfl, ?_, ?_⟩
    · simp [MethodBody.toks, ResultExpr.toks, plain, List.append_assoc]
    · intro t ht
      simp only [MethodBody.callTargets, ResultExpr.callTargets, List.mem_cons] at ht
      rcases ht with h1 | h1 | h1
      · subst h1; decide
      · subst h1; decide
      · rw [mem_read_callTargets h1]; decide
  · intro fs h
    cases h
    refine ⟨_, rfl, rfl, ?_, ?_⟩
    · simp [MethodBody.toks, ResultExpr.toks, plain, List.append_assoc]
    · intro t ht
      simp only [MethodBody.callTargets, ResultExpr.callTargets, List.mem_cons] at ht
      rcases ht with h1 | h1 | h1
      · subst h1; decide
      · subst h1; decide
      · rw [mem_read_callTargets h1]; decide

/-- Witness for C1 at the concrete inputs `ImplementsDrop` (named) and
`TraitBounded` (positional). -/
theorem claim1_witness :
    destructureBodyOk exNamed (namedReads exNamedFs) ∧
    destructureBodyOk exUnnamed (unnamedReads exUnnamedFs) :=
  ⟨(claim1 exNamed).1 exNamedFs rfl, (claim1 exUnnamed).2 exUnnamedFs rfl⟩

/-! Claim C2.  The code emits the auxiliary type declaration with
`#ty_generics` (src/src/lib.rs lines 201, 233, 249, 341), the parameter
list *without* bounds; the introduction fragment `#impl_generics` only
appears on the impl block.  The claim as stated is therefore false for any
input whose parameters carry bounds. -/

/-- Counterexample to C2 as stated, at the test input
`TraitBounded<T: SomeTrait>(T)`: the emitted auxiliary type declaration
carries the application fragment `<T>`, which differs from the introduction
fragment `<T: SomeTrait>`. -/
theorem claim2_counterexample :
    (derive_remove_trait_impls exUnnamed).toOption.map (fun o => o.auxDecl.generics)
        = some (applFragment exGenerics) ∧
    applFragment exGenerics ≠ introFragment exGenerics :=
  ⟨rfl, by decide⟩

/-- C2 (amended): for every input declaration, the auxiliary type
declaration emitted by `remove_trait_impls` carries the application
fragment of the generic parameter list (the parameters without their
bounds) and the same constraint clause as the input declaration. -/
theorem claim2 (i : DeriveInput) (out : RemoveOut)
    (h : derive_remove_trait_impls i = Except.ok out) :
    out.auxDecl.generics = applFragment i.generics ∧
    out.auxDecl.whereC = whereFragment i.generics := by
  obtain ⟨id, g, d⟩ := i
  cases d with
  | structData f =>
    cases f with
    | named fs =>
      simp only [derive_remove_trait_impls, Except.ok.injEq] at h
      subst h; exact ⟨rfl, rfl⟩
    | unnamed fs =>
      simp only [derive_remove_trait_impls, Except.ok.injEq] at h
      subst h; exact ⟨rfl, rfl⟩
    | unit =>
      simp only [derive_remove_trait_impls, Except.ok.injEq] at h
      subst h; exact ⟨rfl, rfl⟩
  | enumData vs =>
    simp only [derive_remove_trait_impls, Except.ok.injEq] at h
    subst h; exact ⟨rfl, rfl⟩
  | unionData fs =>
    exact absurd h (by simp [derive_remove_trait_impls])

/-- The output of `remove_trait_impls` on the `TraitBounded` test input,
spelled out. -/
def exRemoveOut : RemoveOut :=
  ⟨⟨Option.none, "TraitBoundedWithoutTraitImpls", ["<", "T", ">"], [],
      DeclShape.structShape (DeclFields.unnamed [⟨Option.none, "T", 21⟩])⟩,
    ⟨["<", "T", ":", "SomeTrait", ">"], "TraitBounded", ["<", "T", ">"], [],
      ⟨Option.none, true, "remove_trait_impls", true,
        RetTy.tyApp "TraitBoundedWithoutTraitImpls" ["<", "T", ">"],
        MethodBody.bypass (ResultExpr.callOf ["TraitBoundedWithoutTraitImpls"]
          [ReadExpr.viaView (Accessor.ordinal 0) 21])⟩⟩⟩

/-- Witness for amended C2 at the `TraitBounded` test input. -/
theorem claim2_witness :
    derive_remove_trait_impls exUnnamed = Except.ok exRemoveOut ∧
    (exRemoveOut.auxDecl.generics = applFragment exUnnamed.generics ∧
      exRemoveOut.auxDecl.whereC = whereFragment exUnnamed.generics) :=
  ⟨rfl, claim2 exUnnamed exRemoveOut rfl⟩

/-! Claim C3. -/

/-- Conclusion of claim C3 for one record input: the emitted body holds a
list of reads with exactly one read per declared field, the read at
position `k` being the one prescribed for field `k`. -/
def destructureReadsOk (i : DeriveInput) (n : Nat) (expected : Nat → Option ReadExpr) : Prop :=
  ∃ out reads, derive_destructure i = Except.ok out ∧
    out.impl.method.body = MethodBody.bypass (ResultExpr.tupleOf reads) ∧
    reads.length = n ∧
    ∀ k, reads[k]? = expected k

/-- C3: for every record declaration with `n` fields the emitted
`destructure` body contains exactly one bitwise read per declared field —
`n` reads in total, none repeated or omitted — and the `k`-th element of
the returned tuple is the read of the `k`-th declared field, so output
order matches declaration order. -/
theorem claim3 (i : DeriveInput) :
    (∀ fs, i.data = Data.structData (Fields.named fs) →
      destructureReadsOk i fs.length
        fun k => fs[k]?.map fun f => ReadExpr.viaView (Accessor.named f.name) f.span) ∧
    (∀ fs, i.data = Data.structData (Fields.unnamed fs) →
      destructureReadsOk i fs.length
        fun k => fs[k]?.map fun f => ReadExpr.viaView (Accessor.ordinal k) f.span) := by
  obtain ⟨id, g, d⟩ := i
  constructor
  · intro fs h
    cases h
    refine ⟨_, namedReads fs, rfl, rfl, by simp [namedReads], fun k => ?_⟩
    simp [namedReads, List.getElem?_map]
  · intro fs h
    cases h
    refine ⟨_, unnamedReads fs, rfl, rfl, by simp [unnamedReads, List.enum_length], fun k => ?_⟩
    exact unnamedReads_getElem? fs k

/-- Witness for C3 at the concrete inputs `ImplementsDrop` (two named
fields) and `TraitBounded` (one positional field). -/
theorem claim3_witness :
    destructureReadsOk exNamed exNamedFs.length
      (fun k => exNamedFs[k]?.map fun f => ReadExpr.viaView (Accessor.named f.name) f.span) ∧
    destructureReadsOk exUnnamed exUnnamedFs.length
      (fun k => exUnnamedFs[k]?.map fun f => ReadExpr.viaView (Accessor.ordinal k) f.span) :=
  ⟨(claim3 exNamed).1 exNamedFs rfl, (claim3 exUnnamed).2 exUnnamedFs rfl⟩

/-! Claim C4. -/

/-- Conclusion of claim C4 for one tagged-union input: the emitted
`remove_trait_impls` body matches on the view with one arm per declared
variant in declaration order and no wildcard arm; each arm binds the
variant's fields by reference (named fields under their own names,
positional fields under synthesized ordinal names) and rebuilds the
same-named variant of the auxiliary type by reading each binding; unit
arms construct the auxiliary unit variant with no reads. -/
def removeEnumArmsOk (i : DeriveInput) (vs : List Variant) : Prop :=
  ∃ out arms, derive_remove_trait_impls i = Except.ok out ∧
    out.impl.method.body = MethodBody.matchOn arms ∧
    arms.length = vs.length ∧
    (∀ a ∈ arms, a.pat ≠ ArmPat.wildcardPat) ∧
    (∀ k : Nat, arms[k]? = vs[k]?.map (armOf i.ident (i.ident ++ "WithoutTraitImpls"))) ∧
    (∀ (k : Nat) (v : Variant), vs[k]? = some v →
      ∃ a : Arm, arms[k]? = some a ∧
        (∀ nfs, v.fields = Fields.named nfs →
          a.pat = ArmPat.namedPat [i.ident, v.name]
            (nfs.map fun f => PatBinding.refNamed f.name f.span) ∧
          a.rhs = ResultExpr.structOf [i.ident ++ "WithoutTraitImpls", v.name]
            (nfs.map fun f => (f.name, ReadExpr.viaBinding f.name f.span))) ∧
        (∀ ufs, v.fields = Fields.unnamed ufs →
          ∃ bs rs, a.pat = ArmPat.unnamedPat [i.ident, v.name] bs ∧
            a.rhs = ResultExpr.callOf [i.ident ++ "WithoutTraitImpls", v.name] rs ∧
            bs.length = ufs.length ∧ rs.length = ufs.length ∧
            (∀ j, bs[j]? = ufs[j]?.map fun f => PatBinding.refOrdinal (ordinalBinding j) f.span) ∧
            (∀ j, rs[j]? = ufs[j]?.map fun f => ReadExpr.viaBinding (ordinalBinding j) f.span)) ∧
        (v.fields = Fields.unit →
          a.pat = ArmPat.unitPat [i.ident, v.name] ∧
          a.rhs = ResultExpr.pathOf [i.ident ++ "WithoutTraitImpls", v.name] ∧
          a.rhs.reads = []))

/-- C4: for every tagged-union declaration the `remove_trait_impls` body
matches on the view into the cell with exactly one arm per declared
variant, in declaration order and without a wildcard arm; each arm binds
the variant's fields by reference and constructs the same-named variant of
the auxiliary type by bitwise-reading each bound reference, and unit
variant arms construct the auxiliary unit variant with no reads. -/
theorem claim4 (i : DeriveInput) (vs : List Variant)
    (h : i.data = Data.enumData vs) : removeEnumArmsOk i vs := by
  obtain ⟨id, g, d⟩ := i
  cases h
  refine ⟨_, vs.map (armOf id (id ++ "WithoutTraitImpls")), rfl, rfl, by simp, ?_, ?_, ?_⟩
  · intro a ha
    rcases List.mem_map.mp ha with ⟨v, _, rfl⟩
    cases hvf : v.fields <;> simp [armOf, hvf]
  · intro k
    simp [List.getElem?_map]
  · intro k v hv
    refine ⟨armOf id (id ++ "WithoutTraitImpls") v, ?_, ?_, ?_, ?_⟩
    · rw [List.getElem?_map, hv]; rfl
    · intro nfs hnf
      simp [armOf, hnf]
    · intro ufs huf
      simp only [armOf, huf]
      refine ⟨_, _, rfl, rfl, by simp [List.enum_length], by simp [List.enum_length], ?_, ?_⟩
      · intro j
        rw [enum_map_getElem?]
      · intro j
        rw [enum_map_getElem?]
    · intro hu
      simp [armOf, hu, ResultExpr.reads]

/-- Witness for C4 at the test input `GenericEnum`, which has variants of
all three shapes. -/
theorem claim4_witness : removeEnumArmsOk exEnum exVariants :=
  claim4 exEnum exVariants rfl

/-! Claim C5. -/

/-- C5: `destructure` on a tagged-union is rejected at generation time with
the fixed message that names the `remove_trait_impls` derivation, and
either derivation on a union is rejected with the fixed message saying the
form is unsupported; in these cases no output is produced. -/
theorem claim5 :
    (∀ i vs, i.data = Data.enumData vs →
      derive_destructure i = Except.error destructureEnumMsg ∧
      ∀ out, derive_destructure i ≠ Except.ok out) ∧
    destructureEnumMsg =
      "#[derive(destructure)] doesn\x27t work on enums, use #[derive("
        ++ "remove_trait_impls" ++ ")] instead." ∧
    (∀ i fs, i.data = Data.unionData fs →
      (derive_destructure i = Except.error destructureUnionMsg ∧
        ∀ out, derive_destructure i ≠ Except.ok out) ∧
      (derive_remove_trait_impls i = Except.error removeUnionMsg ∧
        ∀ out, derive_remove_trait_impls i ≠ Except.ok out)) := by
  refine ⟨?_, rfl, ?_⟩
  · rintro ⟨id, g, d⟩ vs h
    cases h
    exact ⟨rfl, fun out hout => by simp [derive_destructure] at hout⟩
  · rintro ⟨id, g, d⟩ fs h
    cases h
    exact ⟨⟨rfl, fun out hout => by simp [derive_destructure] at hout⟩,
      ⟨rfl, fun out hout => by simp [derive_remove_trait_impls] at hout⟩⟩

/-- Witness for C5 at the test input `GenericEnum` and the union input `U`. -/
theorem claim5_witness :
    (derive_destructure exEnum = Except.error destructureEnumMsg ∧
      ∀ out, derive_destructure exEnum ≠ Except.ok out) ∧
    ((derive_destructure exUnion = Except.error destructureUnionMsg ∧
        ∀ out, derive_destructure exUnion ≠ Except.ok out) ∧
      (derive_remove_trait_impls exUnion = Except.error removeUnionMsg ∧
        ∀ out, derive_remove_trait_impls exUnion ≠ Except.ok out)) :=
  ⟨claim5.1 exEnum exVariants rfl, claim5.2.2 exUnion [⟨"a", "i32", 41⟩] rfl⟩

/-! Claim C6. -/

/-- The single field `r` of the test input `TraitBounded2`; its reference
type is kept as opaque text. -/
def exSingleNamedF : NamedField := ⟨"r", "RefRefT", 51⟩

/-- The test input `TraitBounded2`, a named record with exactly one field. -/
def exSingleNamed : DeriveInput :=
  ⟨"TraitBounded2", ⟨[⟨"T", ["SomeTrait"]⟩], ["BLifetimeOutlivesA"]⟩,
    Data.structData (Fields.named [exSingleNamedF])⟩

/-- Conclusion of claim C6 for one single-field record input: the emitted
return type is the one-element tuple of the field's type, rendered with a
trailing comma, and its token form is not the bare field type. -/
def oneTupleRetOk (i : DeriveInput) (ty : String) (s : Span) : Prop :=
  ∃ out, derive_destructure i = Except.ok out ∧
    out.impl.method.ret = RetTy.tuple [(ty, s)] ∧
    out.impl.method.ret.toks =
      plain ["("] ++ [⟨ty, some s⟩] ++ plain [",", ")"] ∧
    out.impl.method.ret.toks ≠ [⟨ty, some s⟩]

/-- C6: for every record declaration with exactly one field, the result
type of the emitted `destructure` operation is the one-element anonymous
tuple of that field's type (the one-tuple form with trailing comma), not
the bare field type. -/
theorem claim6 (i : DeriveInput) :
    (∀ f, i.data = Data.structData (Fields.named [f]) →
      oneTupleRetOk i f.ty f.span) ∧
    (∀ f, i.data = Data.structData (Fields.unnamed [f]) →
      oneTupleRetOk i f.ty f.span) := by
  obtain ⟨id, g, d⟩ := i
  constructor
  · intro f h
    cases h
    refine ⟨_, rfl, rfl,
      by simp [RetTy.toks, commaJoin, plain, namedTupleTys], ?_⟩
    intro hc
    have := congrArg List.length hc
    simp [RetTy.toks, commaJoin, plain, namedTupleTys] at this
  · intro f h
    cases h
    refine ⟨_, rfl, rfl,
      by simp [RetTy.toks, commaJoin, plain, unnamedTupleTys], ?_⟩
    intro hc
    have := congrArg List.length hc
    simp [RetTy.toks, commaJoin, plain, unnamedTupleTys] at this

/-- Witness for C6 at the single-field inputs `TraitBounded2` (named) and
`TraitBounded` (positional). -/
theorem claim6_witness :
    oneTupleRetOk exSingleNamed exSingleNamedF.ty exSingleNamedF.span ∧
    oneTupleRetOk exUnnamed "T" 21 :=
  ⟨(claim6 exSingleNamed).1 exSingleNamedF rfl, (claim6 exUnnamed).2 ⟨"T", 21⟩ rfl⟩

/-! Claim C7. -/

/-- C7: for every zero-field declaration the emitted `destructure`
operation produces the empty product: a unit record yields a body with no
result that still constructs the no-cleanup cell from the consumed
instance and drops it unused, and an empty positional record yields the
empty tuple, with the cell constructed in the same way. -/
theorem claim7 (i : DeriveInput) :
    (i.data = Data.structData Fields.unit →
      ∃ out, derive_destructure i = Except.ok out ∧
        out.impl.method.ret = RetTy.none ∧
        out.impl.method.body = MethodBody.cellOnly Option.none ∧
        out.impl.method.body.toks = cellDropToks ∧
        out.impl.method.body.callTargets = ["::std::mem::MaybeUninit::new"]) ∧
    (i.data = Data.structData (Fields.unnamed []) →
      ∃ out, derive_destructure i = Except.ok out ∧
        out.impl.method.ret = RetTy.tuple [] ∧
        out.impl.method.ret.toks = plain ["(", ")"] ∧
        out.impl.method.body = MethodBody.bypass (ResultExpr.tupleOf []) ∧
        out.impl.method.body.toks =
          cellToks ++ plain ["unsafe", "\x7b"] ++ viewToks ++ plain ["(", ")", "\x7d"]) := by
  obtain ⟨id, g, d⟩ := i
  constructor
  · intro h
    cases h
    exact ⟨_, rfl, rfl, rfl, rfl, rfl⟩
  · intro h
    cases h
    refine ⟨_, rfl, rfl,
      by simp [RetTy.toks, commaJoin, plain, unnamedTupleTys], rfl, ?_⟩
    simp [MethodBody.toks, ResultExpr.toks, commaJoin, plain, unnamedReads,
      List.append_assoc]

/-- Witness for C7 at the unit record `Foo;` and the empty positional
record `Empty();`. -/
theorem claim7_witness :
    (∃ out, derive_destructure exUnit = Except.ok out ∧
      out.impl.method.ret = RetTy.none ∧
      out.impl.method.body = MethodBody.cellOnly Option.none ∧
      out.impl.method.body.toks = cellDropToks ∧
      out.impl.method.body.callTargets = ["::std::mem::MaybeUninit::new"]) ∧
    (∃ out, derive_destructure exEmptyTuple = Except.ok out ∧
      out.impl.method.ret = RetTy.tuple [] ∧
      out.impl.method.ret.toks = plain ["(", ")"] ∧
      out.impl.method.body = MethodBody.bypass (ResultExpr.tupleOf []) ∧
      out.impl.method.body.toks =
        cellToks ++ plain ["unsafe", "\x7b"] ++ viewToks ++ plain ["(", ")", "\x7d"]) :=
  ⟨(claim7 exUnit).1 rfl, (claim7 exEmptyTuple).2 rfl⟩

/-! Claim C8. -/

/-- Conclusion of claim C8 for the `destructure` output of one record
input: the `k`-th element of the emitted return type and the `k`-th
emitted read both carry the span prescribed for field `k`. -/
def retSpansOk (i : DeriveInput) (spans : Nat → Option Span) : Prop :=
  ∃ out tys reads, derive_destructure i = Except.ok out ∧
    out.impl.method.ret = RetTy.tuple tys ∧
    out.impl.method.body = MethodBody.bypass (ResultExpr.tupleOf reads) ∧
    (∀ k : Nat, tys[k]?.map Prod.snd = spans k) ∧
    (∀ k : Nat, reads[k]?.map ReadExpr.sp = spans k)

/-- Spans of the fields of one input field list, in declaration order. -/
def Fields.spans : Fields → List Span
  | Fields.named fs => fs.map NamedField.span
  | Fields.unnamed fs => fs.map UnnamedField.span
  | Fields.unit => []

/-- Spans of the field declarations of one emitted field list, in emission
order. -/
def DeclFields.spans : DeclFields → List Span
  | DeclFields.named fs => fs.map FieldDecl.span
  | DeclFields.unnamed fs => fs.map FieldDecl.span
  | DeclFields.unit => []

/-- The bindings an emitted match pattern introduces, in emission order. -/
def ArmPat.bindings : ArmPat → List PatBinding
  | ArmPat.namedPat _ bs => bs
  | ArmPat.unnamedPat _ bs => bs
  | ArmPat.unitPat _ => []
  | ArmPat.wildcardPat => []

/-- The field list of an auxiliary enum variant carries exactly the spans
of the input variant's fields, in order. -/
theorem auxVariantFields_spans (f : Fields) :
    (auxVariantFields f).spans = f.spans := by
  cases f <;>
    simp [auxVariantFields, DeclFields.spans, Fields.spans, List.map_map, Function.comp]

/-- The pattern bindings of an emitted match arm carry exactly the spans
of the variant's fields, in order, for every variant shape. -/
theorem armOf_pat_binding_spans (nm ntn : String) (v : Variant) :
    (armOf nm ntn v).pat.bindings.map PatBinding.sp = v.fields.spans := by
  cases hv : v.fields with
  | named fs =>
    simp [armOf, hv, ArmPat.bindings, Fields.spans, List.map_map, Function.comp,
      PatBinding.sp]
  | unnamed fs =>
    simp only [armOf, hv, ArmPat.bindings, Fields.spans]
    refine List.ext_getElem? fun k => ?_
    simp only [List.getElem?_map, enum_getElem?]
    cases fs[k]? <;> rfl
  | unit => simp [armOf, hv, ArmPat.bindings, Fields.spans]

/-- The right-hand-side reads of an emitted match arm carry exactly the
spans of the variant's fields, in order, for every variant shape. -/
theorem armOf_rhs_read_spans (nm ntn : String) (v : Variant) :
    (armOf nm ntn v).rhs.reads.map ReadExpr.sp = v.fields.spans := by
  cases hv : v.fields with
  | named fs =>
    simp [armOf, hv, ResultExpr.reads, Fields.spans, List.map_map, Function.comp,
      ReadExpr.sp]
  | unnamed fs =>
    simp only [armOf, hv, ResultExpr.reads, Fields.spans]
    refine List.ext_getElem? fun k => ?_
    simp only [List.getElem?_map, enum_getElem?]
    cases fs[k]? <;> rfl
  | unit => simp [armOf, hv, ResultExpr.reads, Fields.spans]

/-- The synthesized binding names of a positional variant's arm are the
ordinal names `__0, __1, ...`, one per field. -/
theorem armOf_pat_binding_names (nm ntn : String) (v : Variant)
    (ufs : List UnnamedField) (h : v.fields = Fields.unnamed ufs) :
    (armOf nm ntn v).pat.bindings.map PatBinding.bname
      = ufs.enum.map fun p => ordinalBinding p.1 := by
  simp only [armOf, h, ArmPat.bindings]
  refine List.ext_getElem? fun k => ?_
  simp only [List.getElem?_map, enum_getElem?]
  cases ufs[k]? <;> rfl

/-- Conclusion of claim C8 for the `remove_trait_impls` output of one
named record input: the `k`-th field declaration of the auxiliary type and
the `k`-th read of the emitted body both carry the span prescribed for
field `k`. -/
def removeNamedSpansOk (i : DeriveInput) (spans : Nat → Option Span) : Prop :=
  ∃ out dfs fls, derive_remove_trait_impls i = Except.ok out ∧
    out.auxDecl.shape = DeclShape.structShape (DeclFields.named dfs) ∧
    out.impl.method.body = MethodBody.bypass
      (ResultExpr.structOf [i.ident ++ "WithoutTraitImpls"] fls) ∧
    (∀ k : Nat, dfs[k]?.map FieldDecl.span = spans k) ∧
    (∀ k : Nat, fls[k]?.map (fun q => q.2.sp) = spans k)

/-- Conclusion of claim C8 for the `remove_trait_impls` output of one
positional record input: the `k`-th field declaration of the auxiliary
type and the `k`-th read of the emitted body both carry the span
prescribed for field `k`. -/
def removeUnnamedSpansOk (i : DeriveInput) (spans : Nat → Option Span) : Prop :=
  ∃ out dfs rs, derive_remove_trait_impls i = Except.ok out ∧
    out.auxDecl.shape = DeclShape.structShape (DeclFields.unnamed dfs) ∧
    out.impl.method.body = MethodBody.bypass
      (ResultExpr.callOf [i.ident ++ "WithoutTraitImpls"] rs) ∧
    (∀ k : Nat, dfs[k]?.map FieldDecl.span = spans k) ∧
    (∀ k : Nat, rs[k]?.map ReadExpr.sp = spans k)

/-- Conclusion of claim C8 for the `remove_trait_impls` output of one
tagged-union input: for every variant, the auxiliary variant's field
declarations, the arm's pattern bindings, and the arm's right-hand-side
reads all carry the spans of that variant's fields, in order; and the
synthesized binding names of positional variants are the ordinal names. -/
def removeEnumSpansOk (i : DeriveInput) (vs : List Variant) : Prop :=
  ∃ out auxVs arms, derive_remove_trait_impls i = Except.ok out ∧
    out.auxDecl.shape = DeclShape.enumShape auxVs ∧
    out.impl.method.body = MethodBody.matchOn arms ∧
    (∀ k : Nat, auxVs[k]?.map (fun p => DeclFields.spans p.2)
      = vs[k]?.map fun v => v.fields.spans) ∧
    (∀ k : Nat, arms[k]?.map (fun a => a.pat.bindings.map PatBinding.sp)
      = vs[k]?.map fun v => v.fields.spans) ∧
    (∀ k : Nat, arms[k]?.map (fun a => a.rhs.reads.map ReadExpr.sp)
      = vs[k]?.map fun v => v.fields.spans) ∧
    (∀ (k : Nat) (v : Variant) ufs, vs[k]? = some v → v.fields = Fields.unnamed ufs →
      arms[k]?.map (fun a => a.pat.bindings.map PatBinding.bname)
        = some (ufs.enum.map fun p => ordinalBinding p.1))

/-- C8: in every emitted output of both derivations, every emitted token
corresponding to a user-supplied field — its type in a field list, its
read expression, and its synthesized binding name for positional variant
fields — carries that field's source span from the input declaration: the
`destructure` return types and reads, the `remove_trait_impls` auxiliary
field declarations and body reads for both record shapes, and, for every
enum variant of every shape, the auxiliary variant field list, the arm's
pattern bindings and the arm's reads.  Unit shapes emit no field-derived
tokens. -/
theorem claim8 (i : DeriveInput) :
    (∀ fs, i.data = Data.structData (Fields.named fs) →
      retSpansOk i fun k => fs[k]?.map NamedField.span) ∧
    (∀ fs, i.data = Data.structData (Fields.unnamed fs) →
      retSpansOk i fun k => fs[k]?.map UnnamedField.span) ∧
    (∀ fs, i.data = Data.structData (Fields.named fs) →
      removeNamedSpansOk i fun k => fs[k]?.map NamedField.span) ∧
    (∀ fs, i.data = Data.structData (Fields.unnamed fs) →
      removeUnnamedSpansOk i fun k => fs[k]?.map UnnamedField.span) ∧
    (∀ vs, i.data = Data.enumData vs → removeEnumSpansOk i vs) := by
  obtain ⟨id, g, d⟩ := i
  refine ⟨?_, ?_, ?_, ?_, ?_⟩
  · intro fs h
    cases h
    refine ⟨_, _, _, rfl, rfl, rfl, fun k => ?_, fun k => ?_⟩
    · simp only [namedTupleTys, List.getElem?_map]
      cases fs[k]? <;> rfl
    · simp only [namedReads, List.getElem?_map]
      cases fs[k]? <;> rfl
  · intro fs h
    cases h
    refine ⟨_, _, _, rfl, rfl, rfl, fun k => ?_, fun k => ?_⟩
    · simp only [unnamedTupleTys, List.getElem?_map]
      cases fs[k]? <;> rfl
    · simp only [unnamedReads_getElem?]
      cases fs[k]? <;> rfl
  · intro fs h
    cases h
    refine ⟨_, _, _, rfl, rfl, rfl, fun k => ?_, fun k => ?_⟩
    · simp only [List.getElem?_map]
      cases fs[k]? <;> rfl
    · simp only [List.getElem?_map]
      cases fs[k]? <;> rfl
  · intro fs h
    cases h
    refine ⟨_, _, _, rfl, rfl, rfl, fun k => ?_, fun k => ?_⟩
    · simp only [List.getElem?_map]
      cases fs[k]? <;> rfl
    · simp only [unnamedReads_getElem?]
      cases fs[k]? <;> rfl
  · intro vs h
    cases h
    refine ⟨_, vs.map fun v => (v.name, auxVariantFields v.fields),
      vs.map (armOf id (id ++ "WithoutTraitImpls")),
      rfl, rfl, rfl, fun k => ?_, fun k => ?_, fun k => ?_, fun k v ufs hv hvf => ?_⟩
    · simp only [List.getElem?_map]
      cases vs[k]? with
      | none => rfl
      | some v => simpa using auxVariantFields_spans v.fields
    · simp only [List.getElem?_map]
      cases vs[k]? with
      | none => rfl
      | some v => simpa using armOf_pat_binding_spans id (id ++ "WithoutTraitImpls") v
    · simp only [List.getElem?_map]
      cases vs[k]? with
      | none => rfl
      | some v => simpa using armOf_rhs_read_spans id (id ++ "WithoutTraitImpls") v
    · rw [List.getElem?_map, hv]
      exact congrArg some
        (armOf_pat_binding_names id (id ++ "WithoutTraitImpls") v ufs hvf)

/-- Witness for C8 at `ImplementsDrop` (named record, both derivations),
`TraitBounded` (positional record, both derivations) and `GenericEnum`
(variants of all three shapes). -/
theorem claim8_witness :
    retSpansOk exNamed (fun k => exNamedFs[k]?.map NamedField.span) ∧
    retSpansOk exUnnamed (fun k => exUnnamedFs[k]?.map UnnamedField.span) ∧
    removeNamedSpansOk exNamed (fun k => exNamedFs[k]?.map NamedField.span) ∧
    removeUnnamedSpansOk exUnnamed (fun k => exUnnamedFs[k]?.map UnnamedField.span) ∧
    removeEnumSpansOk exEnum exVariants :=
  ⟨(claim8 exNamed).1 exNamedFs rfl,
    (claim8 exUnnamed).2.1 exUnnamedFs rfl,
    (claim8 exNamed).2.2.1 exNamedFs rfl,
    (claim8 exUnnamed).2.2.2.1 exUnnamedFs rfl,
    (claim8 exEnum).2.2.2.2 exVariants rfl⟩

/-! Claim C9. -/

/-- Header facts about one emitted method: its literal name, the
unconditional inlining hint, and the by-value receiver. -/
def methodHeaderOk (m : Method) (nm : String) : Prop :=
  m.name = nm ∧ m.inlineAlways = true ∧ m.selfByValue = true

/-- C9: for every supported input the emitted member operations are named
literally `destructure` and `remove_trait_impls`, take the receiver by
value, carry `#[inline(always)]`, and the auxiliary type's identifier is
the input identifier with the literal suffix `WithoutTraitImpls`. -/
theorem claim9 (i : DeriveInput) :
    (∀ out, derive_destructure i = Except.ok out →
      methodHeaderOk out.impl.method "destructure") ∧
    (∀ out, derive_remove_trait_impls i = Except.ok out →
      methodHeaderOk out.impl.method "remove_trait_impls" ∧
      out.auxDecl.name = i.ident ++ "WithoutTraitImpls") := by
  obtain ⟨id, g, d⟩ := i
  constructor
  · intro out h
    cases d with
    | structData f =>
      cases f with
      | named fs =>
        simp only [derive_destructure, Except.ok.injEq] at h
        subst h; exact ⟨rfl, rfl, rfl⟩
      | unnamed fs =>
        simp only [derive_destructure, Except.ok.injEq] at h
        subst h; exact ⟨rfl, rfl, rfl⟩
      | unit =>
        simp only [derive_destructure, Except.ok.injEq] at h
        subst h; exact ⟨rfl, rfl, rfl⟩
    | enumData vs => exact absurd h (by simp [derive_destructure])
    | unionData fs => exact absurd h (by simp [derive_destructure])
  · intro out h
    cases d with
    | structData f =>
      cases f with
      | named fs =>
        simp only [derive_remove_trait_impls, Except.ok.injEq] at h
        subst h; exact ⟨⟨rfl, rfl, rfl⟩, rfl⟩
      | unnamed fs =>
        simp only [derive_remove_trait_impls, Except.ok.injEq] at h
        subst h; exact ⟨⟨rfl, rfl, rfl⟩, rfl⟩
      | unit =>
        simp only [derive_remove_trait_impls, Except.ok.injEq] at h
        subst h; exact ⟨⟨rfl, rfl, rfl⟩, rfl⟩
    | enumData vs =>
      simp only [derive_remove_trait_impls, Except.ok.injEq] at h
      subst h; exact ⟨⟨rfl, rfl, rfl⟩, rfl⟩
    | unionData fs => exact absurd h (by simp [derive_remove_trait_impls])

/-- The output of `destructure` on the `ImplementsDrop` doc example,
spelled out. -/
def exNamedDestructureOut : DestructureOut :=
  ⟨⟨[], "ImplementsDrop", [], [],
    ⟨Option.none, true, "destructure", true,
      RetTy.tuple (namedTupleTys exNamedFs),
      MethodBody.bypass (ResultExpr.tupleOf (namedReads exNamedFs))⟩⟩⟩

/-- The output of `remove_trait_impls` on the `ImplementsDrop` doc
example, spelled out. -/
def exNamedRemoveOut : RemoveOut :=
  ⟨⟨Option.none, "ImplementsDropWithoutTraitImpls", [], [],
      DeclShape.structShape (DeclFields.named
        [⟨some "some_str", "String", 11⟩, ⟨some "some_int", "i32", 12⟩])⟩,
    ⟨[], "ImplementsDrop", [], [],
      ⟨Option.none, true, "remove_trait_impls", true,
        RetTy.tyApp "ImplementsDropWithoutTraitImpls" [],
        MethodBody.bypass (ResultExpr.structOf ["ImplementsDropWithoutTraitImpls"]
          [("some_str", ReadExpr.viaView (Accessor.named "some_str") 11),
            ("some_int", ReadExpr.viaView (Accessor.named "some_int") 12)])⟩⟩⟩

/-- Witness for C9 at `ImplementsDrop`, whose `remove_trait_impls` output
is named `ImplementsDropWithoutTraitImpls`. -/
theorem claim9_witness :
    methodHeaderOk exNamedDestructureOut.impl.method "destructure" ∧
    (methodHeaderOk exNamedRemoveOut.impl.method "remove_trait_impls" ∧
      exNamedRemoveOut.auxDecl.name = exNamed.ident ++ "WithoutTraitImpls") :=
  ⟨(claim9 exNamed).1 exNamedDestructureOut rfl,
    (claim9 exNamed).2 exNamedRemoveOut rfl⟩

/-! Claim C10. -/

/-- C10: both synthesized member operations are emitted with no visibility
modifier, making them private inherent methods of the original type. -/
theorem claim10 (i : DeriveInput) :
    (∀ out, derive_destructure i = Except.ok out →
      out.impl.method.vis = Option.none) ∧
    (∀ out, derive_remove_trait_impls i = Except.ok out →
      out.impl.method.vis = Option.none) := by
  obtain ⟨id, g, d⟩ := i
  constructor
  · intro out h
    cases d with
    | structData f =>
      cases f with
      | named fs =>
        simp only [derive_destructure, Except.ok.injEq] at h
        subst h; rfl
      | unnamed fs =>
        simp only [derive_destructure, Except.ok.injEq] at h
        subst h; rfl
      | unit =>
        simp only [derive_destructure, Except.ok.injEq] at h
        subst h; rfl
    | enumData vs => exact absurd h (by simp [derive_destructure])
    | unionData fs => exact absurd h (by simp [derive_destructure])
  · intro out h
    cases d with
    | structData f =>
      cases f with
      | named fs =>
        simp only [derive_remove_trait_impls, Except.ok.injEq] at h
        subst h; rfl
      | unnamed fs =>
        simp only [derive_remove_trait_impls, Except.ok.injEq] at h
        subst h; rfl
      | unit =>
        simp only [derive_remove_trait_impls, Except.ok.injEq] at h
        subst h; rfl
    | enumData vs =>
      simp only [derive_remove_trait_impls, Except.ok.injEq] at h
      subst h; rfl
    | unionData fs => exact absurd h (by simp [derive_remove_trait_impls])

/-- Witness for C10 at `ImplementsDrop`, using the spelled-out outputs of
both derivations. -/
theorem claim10_witness :
    exNamedDestructureOut.impl.method.vis = Option.none ∧
    exNamedRemoveOut.impl.method.vis = Option.none :=
  ⟨(claim10 exNamed).1 exNamedDestructureOut rfl,
    (claim10 exNamed).2 exNamedRemoveOut rfl⟩

end DeriveDestructure
